import Mathlib

/-!
# express-rested — Resource Collection Engine, shallow embedding

Shallow embedding of the three operation handlers in `src/`:

* `src/lib/operations/putAll.js`           — collection PUT (replace entire set)
* `src/lib/operations/resource/patch.js`   — item PATCH (update one)
* `src/unnamed/part_000`                   — item GET (read one)

Modelling conventions, fixed once here:

* Identifiers are an arbitrary type `Id` with decidable equality (strings in
  the source; the handlers never inspect their structure).
* A resource is an opaque value of type `Res`; a JS resource object's mutable
  payload state is the value itself, so "mutating a resource in place" is
  replacing the value stored at its identifier in the collection.  Each
  resource object is reachable from exactly one identifier (§3 invariant:
  at most one resource per identifier), so this value model is faithful to
  the reference semantics of the source.
* The in-memory collection is an association list `List (Id × Res)` with
  unique keys (the JS object `this.map` of the collection class).
* A JS `throw` from the application's `constructor`/`edit` is `Option.none`;
  a falsy result of `instantiate` is likewise `none`.
* Statuses: `context.setStatus 404/400/415/500/204` and
  `context.setStatus(200).setBody(resource)` become the corresponding
  `Outcome` constructors; `context.disallow(resource)` (the rights-denied
  path, "Method not allowed" in the code's comments, `Forbidden` in the
  spec's taxonomy) becomes `Outcome.forbidden`; the handoff `return fn()`
  to a registered custom formatter becomes `Outcome.customHandled`.
-/

namespace Rested

/-- Terminal outcome of an operation handler.  One constructor per distinct
status the handlers in `src/` can report, plus `customHandled` for the
handoff `return fn()` to a registered custom formatter (the handler then
reports no status of its own). -/
inductive Outcome (Res : Type) where
  | notFound
  | badRequest
  | forbidden
  | unsupportedFormat
  | internalError
  | noContent
  | ok (body : Res)
  | customHandled
  deriving DecidableEq

/-- The resource adapter: the application-supplied constructor and in-place
`edit` method.  A JS `throw` (or, for `instantiate`, a falsy result) is
`none`; a successful in-place `edit` returns the resource's new value. -/
structure Adapter (Id Res Info : Type) where
  instantiate : Id → Info → Option Res
  edit : Res → Info → Option Res

/-- The request context: the rights-evaluator methods `mayCreate`/`mayRead`/
`mayUpdate`/`mayDelete`, the representation test `isJson`, whether
`createCustomFn opName resource` yields a formatter, and whether the
persistence notifier's completion reports an error (the `error` argument of
the `set`/`setAll` callbacks). -/
structure Ctx (Res : Type) where
  mayCreate : Res → Bool
  mayRead : Res → Bool
  mayUpdate : Res → Bool
  mayDelete : Res → Bool
  isJson : Bool
  hasCustomFn : String → Res → Bool
  persistError : Bool

/-- The in-memory collection: identifier → resource, unique keys. -/
abbrev Coll (Id Res : Type) := List (Id × Res)

variable {Id Res Info : Type} [DecidableEq Id]

/-- Modelled from the spec: `collection.get(id) -> Resource | absent`, no side
effects; it returns the stored resource itself (the live object in JS, hence
the value currently at that key here).  The collection class is not under
`src/`. -/
def Collection.get (coll : Coll Id Res) (id : Id) : Option Res :=
  match coll with
  | [] => none
  | (k, r) :: t => if k = id then some r else Collection.get t id

/-- Modelled from the spec: `collection.set(id, resource)` inserts or replaces
a single entry.  Replacing the value at an existing key is also the visible
effect on the collection of an in-place `resource.edit`, since the map keeps
pointing at the same (now mutated) object. -/
def Collection.set (coll : Coll Id Res) (id : Id) (r : Res) : Coll Id Res :=
  match coll with
  | [] => [(id, r)]
  | (k, v) :: t => if k = id then (k, r) :: t else (k, v) :: Collection.set t id r

/-- `delete obj[id]` on a JS object: drop the entry with that key (under the
unique-key invariant, filtering all occurrences is the same). -/
def Collection.remove (coll : Coll Id Res) (id : Id) : Coll Id Res :=
  coll.filter (fun p => decide (p.1 ≠ id))

/-- A JSON request body as the collection PUT handler receives it:
`null`/absent or a non-object value (both rejected by the shape check
`!data || typeof data !== 'object'`), or an object, i.e. a finite mapping
identifier → per-resource payload. -/
inductive Payload (Id Info : Type) where
  | nullish
  | primitive
  | obj (items : List (Id × Info))

/-- What `putAll` leaves behind: the reported status, the in-memory
collection after the call, and the mapping passed to `collection.setAll`
when it was invoked (`none` = `setAll` was never called). -/
structure PutAllResult (Id Res : Type) where
  outcome : Outcome Res
  coll : Coll Id Res
  setAllArg : Option (Coll Id Res)
  deriving DecidableEq

/-- The `for` loop of `putAll` (`src/lib/operations/putAll.js`, lines 12-46),
one payload entry at a time.  Arguments after the item list: the live
collection (which in-place `edit`s mutate), the remaining `toDelete` map,
and the accumulated `resources` object.  Returns either an early error
return `cb(...)` together with the live collection at that point, or the
state after the loop. -/
def putAllLoop (A : Adapter Id Res Info) (ctx : Ctx Res) :
    List (Id × Info) → Coll Id Res → Coll Id Res → Coll Id Res →
    (Outcome Res × Coll Id Res) ⊕ (Coll Id Res × Coll Id Res × Coll Id Res)
  | [], coll, toDelete, resources => .inr (coll, toDelete, resources)
  | (id, info) :: rest, coll, toDelete, resources =>
    match Collection.get coll id with
    | none =>
      -- create
      match A.instantiate id info with
      | none => .inl (.badRequest, coll)
      | some r =>
        if ctx.mayCreate r then
          putAllLoop A ctx rest coll toDelete (resources ++ [(id, r)])
        else
          .inl (.forbidden, coll)
    | some r =>
      -- update
      if ctx.mayUpdate r then
        match A.edit r info with
        | none => .inl (.badRequest, coll)
        | some r' =>
          putAllLoop A ctx rest (Collection.set coll id r')
            (Collection.remove toDelete id) (resources ++ [(id, r')])
      else
        .inl (.forbidden, coll)

/-- `putAll` (`src/lib/operations/putAll.js`): the collection PUT handler.
Shape check, then the per-item loop (with `toDelete` initialised to
`collection.getMap()`, a copy of the current mapping), then the deletion
rights check over what is left of `toDelete` (the code returns at the first
denial; every denial reports the same `disallow` outcome, so `all` has the
same observable result), then `collection.setAll(resources, cb)`.
`setAll` is modelled from the spec (§4.1): it replaces the entire collection
with exactly the given mapping, then invokes the persistence notifier; a
notifier error is reported as 500 with no rollback of the mapping (§7). -/
def putAll (A : Adapter Id Res Info) (ctx : Ctx Res) (coll : Coll Id Res)
    (data : Payload Id Info) : PutAllResult Id Res :=
  match data with
  | .nullish => ⟨.badRequest, coll, none⟩
  | .primitive => ⟨.badRequest, coll, none⟩
  | .obj items =>
    match putAllLoop A ctx items coll coll [] with
    | .inl (o, c) => ⟨o, c, none⟩
    | .inr (c, toDelete, resources) =>
      if toDelete.all (fun p => ctx.mayDelete p.2) then
        ⟨if ctx.persistError then .internalError else .noContent,
         resources, some resources⟩
      else
        ⟨.forbidden, c, none⟩

/-- Item PATCH handler (`src/lib/operations/resource/patch.js`).  Note the
order: the in-place `resource.edit(obj)` happens before `collection.set`,
and a notifier error after it leaves the edited value in the mapping. -/
def patch (A : Adapter Id Res Info) (ctx : Ctx Res) (coll : Coll Id Res)
    (id : Id) (obj : Info) : Outcome Res × Coll Id Res :=
  match Collection.get coll id with
  | none => (.notFound, coll)
  | some resource =>
    if !ctx.isJson then
      if ctx.hasCustomFn "patch" resource then (.customHandled, coll)
      else (.unsupportedFormat, coll)
    else if !ctx.mayUpdate resource then (.forbidden, coll)
    else
      match A.edit resource obj with
      | none => (.badRequest, coll)
      | some r' =>
        ((if ctx.persistError then .internalError else .noContent),
         Collection.set coll id r')

/-- Item GET handler (`src/unnamed/part_000`). -/
def itemGet (ctx : Ctx Res) (coll : Coll Id Res) (id : Id) :
    Outcome Res × Coll Id Res :=
  match Collection.get coll id with
  | none => (.notFound, coll)
  | some resource =>
    if !ctx.isJson then
      if ctx.hasCustomFn "get" resource then (.customHandled, coll)
      else (.unsupportedFormat, coll)
    else if !ctx.mayRead resource then (.forbidden, coll)
    else (.ok resource, coll)

/-- Whether one payload entry passes `putAll`'s per-item processing, judged
against the collection as it was when the handler was entered: an identifier
absent from the collection must instantiate and pass the create right; a
present one must pass the update right and edit without throwing. -/
def itemPasses (A : Adapter Id Res Info) (ctx : Ctx Res) (coll : Coll Id Res)
    (it : Id × Info) : Bool :=
  match Collection.get coll it.1 with
  | none =>
    match A.instantiate it.1 it.2 with
    | none => false
    | some r => ctx.mayCreate r
  | some r => ctx.mayUpdate r && (A.edit r it.2).isSome

/-- The adapter call `putAll` makes for one payload entry (instantiate for an
absent identifier, edit for a present one), judged against the collection as
it was when the handler was entered; `none` = the adapter rejected it. -/
def itemResult (A : Adapter Id Res Info) (coll : Coll Id Res)
    (it : Id × Info) : Option Res :=
  match Collection.get coll it.1 with
  | none => A.instantiate it.1 it.2
  | some r => A.edit r it.2

/-- The payload identifiers that are update targets: present in `coll`. -/
def presentIds (coll : Coll Id Res) (items : List (Id × Info)) : List Id :=
  (items.filter (fun it => (Collection.get coll it.1).isSome)).map Prod.fst

/-! ## Concrete fixtures for witnesses and counterexamples

Identifiers, resource payload state and item payloads are all `Nat`. -/

/-- Adapter whose constructor and `edit` simply store the payload. -/
def natAdapter : Adapter Nat Nat Nat :=
  ⟨fun _ i => some i, fun _ i => some i⟩

/-- All rights granted, default (JSON) representation, notifier succeeds. -/
def allowAllCtx : Ctx Nat :=
  ⟨fun _ => true, fun _ => true, fun _ => true, fun _ => true, true,
   fun _ _ => false, false⟩

/-- All rights granted, JSON representation, notifier always fails. -/
def failCtx : Ctx Nat :=
  ⟨fun _ => true, fun _ => true, fun _ => true, fun _ => true, true,
   fun _ _ => false, true⟩

/-- Update allowed only on the resource whose state is `10`; everything else
granted; JSON representation; notifier succeeds. -/
def updateOnly10Ctx : Ctx Nat :=
  ⟨fun _ => true, fun _ => true, fun r => r == 10, fun _ => true, true,
   fun _ _ => false, false⟩

/-- Non-default representation with a registered custom formatter for every
operation; read and update rights denied; notifier succeeds. -/
def fmtCtx : Ctx Nat :=
  ⟨fun _ => true, fun _ => false, fun _ => false, fun _ => true, false,
   fun _ _ => true, false⟩

/-! ## Basic facts about the collection primitives -/

theorem Collection.get_set_self (coll : Coll Id Res) (id : Id) (r : Res) :
    Collection.get (Collection.set coll id r) id = some r := by
  induction coll with
  | nil => simp [Collection.set, Collection.get]
  | cons hd t ih =>
    obtain ⟨k, v⟩ := hd
    by_cases hk : k = id <;> simp [Collection.set, Collection.get, hk, ih]

theorem Collection.get_set_ne (coll : Coll Id Res) {id k : Id} (r : Res)
    (h : k ≠ id) :
    Collection.get (Collection.set coll id r) k = Collection.get coll k := by
  induction coll with
  | nil => simp [Collection.set, Collection.get, Ne.symm h]
  | cons hd t ih =>
    obtain ⟨k', v⟩ := hd
    by_cases hk : k' = id
    · subst hk
      simp [Collection.set, Collection.get, Ne.symm h]
    · simp [Collection.set, Collection.get, hk, ih]

theorem Collection.keys_set (coll : Coll Id Res) {id : Id} (r : Res)
    (h : (Collection.get coll id).isSome = true) :
    (Collection.set coll id r).map Prod.fst = coll.map Prod.fst := by
  induction coll with
  | nil => simp [Collection.get] at h
  | cons hd t ih =>
    obtain ⟨k, v⟩ := hd
    by_cases hk : k = id
    · simp [Collection.set, hk]
    · simp only [Collection.get, if_neg hk] at h
      simp [Collection.set, hk, ih h]

theorem Collection.get_isSome_of_mem {coll : Coll Id Res} {p : Id × Res}
    (h : p ∈ coll) : (Collection.get coll p.1).isSome = true := by
  induction coll with
  | nil => simp at h
  | cons hd t ih =>
    obtain ⟨k, v⟩ := hd
    rcases List.mem_cons.1 h with h1 | h1
    · subst h1; simp [Collection.get]
    · by_cases hk : k = p.1 <;> simp [Collection.get, hk, ih h1]

theorem Collection.get_eq_none_of_not_mem {coll : Coll Id Res} {i : Id}
    (h : i ∉ coll.map Prod.fst) : Collection.get coll i = none := by
  induction coll with
  | nil => simp [Collection.get]
  | cons hd t ih =>
    obtain ⟨k, v⟩ := hd
    simp only [List.map_cons, List.mem_cons] at h
    push_neg at h
    simp [Collection.get, Ne.symm h.1, ih h.2]

/-! ## Characterisation of the `putAll` loop -/

/-- An early return from the loop always carries status 400 or the
`disallow` status: those are the only `cb(...)` calls inside the loop. -/
theorem putAllLoop_inl_outcome (A : Adapter Id Res Info) (ctx : Ctx Res) :
    ∀ (items : List (Id × Info)) (live toDel res : Coll Id Res)
      (o : Outcome Res) (c : Coll Id Res),
      putAllLoop A ctx items live toDel res = .inl (o, c) →
      o = .badRequest ∨ o = .forbidden
  | [], live, toDel, res, o, c => by simp [putAllLoop]
  | (id, info) :: rest, live, toDel, res, o, c => by
    intro h
    cases hg : Collection.get live id with
    | none =>
      cases hi : A.instantiate id info with
      | none =>
        simp [putAllLoop, hg, hi] at h
        exact Or.inl h.1.symm
      | some r =>
        cases hc : ctx.mayCreate r with
        | false =>
          simp [putAllLoop, hg, hi, hc] at h
          exact Or.inr h.1.symm
        | true =>
          simp only [putAllLoop, hg, hi, hc, if_true] at h
          exact putAllLoop_inl_outcome A ctx rest live toDel
            (res ++ [(id, r)]) o c h
    | some r =>
      cases hu : ctx.mayUpdate r with
      | false =>
        simp [putAllLoop, hg, hu] at h
        exact Or.inr h.1.symm
      | true =>
        cases he : A.edit r info with
        | none =>
          simp [putAllLoop, hg, hu, he] at h
          exact Or.inl h.1.symm
        | some r' =>
          simp only [putAllLoop, hg, hu, he, if_true] at h
          exact putAllLoop_inl_outcome A ctx rest (Collection.set live id r')
            (Collection.remove toDel id) (res ++ [(id, r')]) o c h

/-- Loop characterisation, success case: when every payload entry passes its
per-item processing (judged against the entry collection `coll₀`), the loop
finishes.  `live` is the live collection (it must still agree with `coll₀`
on the identifiers not yet processed); the remaining deletion candidates are
exactly the entries of `toDel` whose key is not an update target; the
accumulated `resources` object gains exactly the payload's identifiers; and
the live collection keeps its key list and is untouched outside the
payload's identifiers. -/
theorem putAllLoop_success (A : Adapter Id Res Info) (ctx : Ctx Res)
    (coll₀ : Coll Id Res) :
    ∀ (items : List (Id × Info)) (live toDel res : Coll Id Res),
      (items.map Prod.fst).Nodup →
      (∀ it ∈ items, Collection.get live it.1 = Collection.get coll₀ it.1) →
      (∀ it ∈ items, itemPasses A ctx coll₀ it = true) →
      ∃ live' res',
        putAllLoop A ctx items live toDel res =
          .inr (live',
                toDel.filter (fun p => decide (p.1 ∉ presentIds coll₀ items)),
                res') ∧
        res'.map Prod.fst = res.map Prod.fst ++ items.map Prod.fst ∧
        live'.map Prod.fst = live.map Prod.fst ∧
        (∀ k, k ∉ items.map Prod.fst →
          Collection.get live' k = Collection.get live k)
  | [], live, toDel, res => by
    intro _ _ _
    refine ⟨live, res, ?_, by simp, rfl, fun k _ => rfl⟩
    simp [putAllLoop, presentIds]
  | (id, info) :: rest, live, toDel, res => by
    intro hnd hagree hpass
    rw [List.map_cons, List.nodup_cons] at hnd
    have hid : id ∉ rest.map Prod.fst := hnd.1
    have hndr : (rest.map Prod.fst).Nodup := hnd.2
    have hglive : Collection.get live id = Collection.get coll₀ id :=
      hagree (id, info) (List.mem_cons_self _ _)
    have hp := hpass (id, info) (List.mem_cons_self _ _)
    cases hg : Collection.get coll₀ id with
    | none =>
      -- create path
      rw [hg] at hglive
      cases hi : A.instantiate id info with
      | none => simp [itemPasses, hg, hi] at hp
      | some r =>
        have hc : ctx.mayCreate r = true := by
          simpa [itemPasses, hg, hi] using hp
        obtain ⟨live', res', hloop, hres, hkeys, hout⟩ :=
          putAllLoop_success A ctx coll₀ rest live toDel (res ++ [(id, r)])
            hndr (fun it hm => hagree it (List.mem_cons_of_mem _ hm))
            (fun it hm => hpass it (List.mem_cons_of_mem _ hm))
        refine ⟨live', res', ?_, ?_, hkeys, ?_⟩
        · simp only [putAllLoop, hglive, hi, hc, if_true]
          rw [hloop]
          have : presentIds coll₀ ((id, info) :: rest) = presentIds coll₀ rest := by
            simp [presentIds, List.filter_cons, hg]
          rw [this]
        · simp [hres]
        · intro k hk
          simp only [List.map_cons, List.mem_cons] at hk
          push_neg at hk
          exact hout k hk.2
    | some r =>
      -- update path
      rw [hg] at hglive
      have hu : ctx.mayUpdate r = true := by
        have := hp
        simp only [itemPasses, hg, Bool.and_eq_true] at this
        exact this.1
      have hedit : (A.edit r info).isSome = true := by
        have := hp
        simp only [itemPasses, hg, Bool.and_eq_true] at this
        exact this.2
      cases he : A.edit r info with
      | none => rw [he] at hedit; simp at hedit
      | some r' =>
        have hagree' : ∀ it ∈ rest,
            Collection.get (Collection.set live id r') it.1 =
              Collection.get coll₀ it.1 := by
          intro it hm
          have hne : it.1 ≠ id := by
            intro e
            exact hid (e ▸ List.mem_map_of_mem Prod.fst hm)
          rw [Collection.get_set_ne live r' hne]
          exact hagree it (List.mem_cons_of_mem _ hm)
        obtain ⟨live', res', hloop, hres, hkeys, hout⟩ :=
          putAllLoop_success A ctx coll₀ rest (Collection.set live id r')
            (Collection.remove toDel id) (res ++ [(id, r')])
            hndr hagree' (fun it hm => hpass it (List.mem_cons_of_mem _ hm))
        refine ⟨live', res', ?_, ?_, ?_, ?_⟩
        · simp only [putAllLoop, hglive, hu, he, if_true]
          rw [hloop]
          have hpres : presentIds coll₀ ((id, info) :: rest) =
              id :: presentIds coll₀ rest := by
            simp [presentIds, List.filter_cons, hg]
          have hfilters :
              (Collection.remove toDel id).filter
                  (fun p => decide (p.1 ∉ presentIds coll₀ rest)) =
              toDel.filter
                (fun p => decide (p.1 ∉ presentIds coll₀ ((id, info) :: rest))) := by
            rw [Collection.remove, List.filter_filter, hpres]
            apply List.filter_congr
            intro p _
            simp [List.mem_cons, not_or, Bool.and_comm]
          rw [hfilters]
        · simp [hres]
        · rw [hkeys,
            Collection.keys_set live r' (by simp [hglive])]
        · intro k hk
          simp only [List.map_cons, List.mem_cons] at hk
          push_neg at hk
          rw [hout k hk.2, Collection.get_set_ne live r' hk.1]

/-- Loop characterisation, failure case: when some payload entry fails its
per-item processing, the loop returns early.  The status is `disallow`
(rights denial) or, for 400, comes with an adapter rejection to blame; the
live collection keeps its key list and is untouched outside the payload's
identifiers (in-place edits of entries processed before the failure are the
only changes). -/
theorem putAllLoop_failure (A : Adapter Id Res Info) (ctx : Ctx Res)
    (coll₀ : Coll Id Res) :
    ∀ (items : List (Id × Info)) (live toDel res : Coll Id Res),
      (items.map Prod.fst).Nodup →
      (∀ it ∈ items, Collection.get live it.1 = Collection.get coll₀ it.1) →
      items.all (itemPasses A ctx coll₀) = false →
      ∃ o c, putAllLoop A ctx items live toDel res = .inl (o, c) ∧
        (o = .forbidden ∨
          (o = .badRequest ∧ ∃ it ∈ items, itemResult A coll₀ it = none)) ∧
        c.map Prod.fst = live.map Prod.fst ∧
        (∀ k, k ∉ items.map Prod.fst →
          Collection.get c k = Collection.get live k)
  | [], live, toDel, res => by
    intro _ _ hall
    simp at hall
  | (id, info) :: rest, live, toDel, res => by
    intro hnd hagree hall
    rw [List.map_cons, List.nodup_cons] at hnd
    have hid : id ∉ rest.map Prod.fst := hnd.1
    have hndr : (rest.map Prod.fst).Nodup := hnd.2
    have hglive : Collection.get live id = Collection.get coll₀ id :=
      hagree (id, info) (List.mem_cons_self _ _)
    cases hp : itemPasses A ctx coll₀ (id, info) with
    | false =>
      -- the head entry is the failing one
      cases hg : Collection.get coll₀ id with
      | none =>
        rw [hg] at hglive
        cases hi : A.instantiate id info with
        | none =>
          exact ⟨.badRequest, live, by simp [putAllLoop, hglive, hi],
            Or.inr ⟨rfl, (id, info), List.mem_cons_self _ _,
              by simp [itemResult, hg, hi]⟩,
            rfl, fun k _ => rfl⟩
        | some r =>
          have hc : ctx.mayCreate r = false := by
            simpa [itemPasses, hg, hi] using hp
          exact ⟨.forbidden, live, by simp [putAllLoop, hglive, hi, hc],
            Or.inl rfl, rfl, fun k _ => rfl⟩
      | some r =>
        rw [hg] at hglive
        simp only [itemPasses, hg, Bool.and_eq_false_iff] at hp
        cases hu : ctx.mayUpdate r with
        | false =>
          exact ⟨.forbidden, live, by simp [putAllLoop, hglive, hu],
            Or.inl rfl, rfl, fun k _ => rfl⟩
        | true =>
          have he : A.edit r info = none := by
            rcases hp with hp | hp
            · rw [hu] at hp; cases hp
            · exact Option.not_isSome_iff_eq_none.1 (by simp [hp])
          exact ⟨.badRequest, live, by simp [putAllLoop, hglive, hu, he],
            Or.inr ⟨rfl, (id, info), List.mem_cons_self _ _,
              by simp [itemResult, hg, he]⟩,
            rfl, fun k _ => rfl⟩
    | true =>
      -- the head entry passes; some later entry fails
      have hallr : rest.all (itemPasses A ctx coll₀) = false := by
        rw [List.all_cons, hp, Bool.true_and] at hall
        exact hall
      cases hg : Collection.get coll₀ id with
      | none =>
        rw [hg] at hglive
        cases hi : A.instantiate id info with
        | none => simp [itemPasses, hg, hi] at hp
        | some r =>
          have hc : ctx.mayCreate r = true := by
            simpa [itemPasses, hg, hi] using hp
          obtain ⟨o, c, hloop, ho, hkeys, hout⟩ :=
            putAllLoop_failure A ctx coll₀ rest live toDel (res ++ [(id, r)])
              hndr (fun it hm => hagree it (List.mem_cons_of_mem _ hm)) hallr
          refine ⟨o, c, ?_, ?_, hkeys, ?_⟩
          · simp only [putAllLoop, hglive, hi, hc, if_true]
            exact hloop
          · rcases ho with ho | ⟨ho, it, hm, hir⟩
            · exact Or.inl ho
            · exact Or.inr ⟨ho, it, List.mem_cons_of_mem _ hm, hir⟩
          · intro k hk
            simp only [List.map_cons, List.mem_cons] at hk
            push_neg at hk
            exact hout k hk.2
      | some r =>
        rw [hg] at hglive
        have hp' := hp
        simp only [itemPasses, hg, Bool.and_eq_true] at hp'
        have hu : ctx.mayUpdate r = true := hp'.1
        cases he : A.edit r info with
        | none => rw [he] at hp'; simp at hp'
        | some r' =>
          have hagree' : ∀ it ∈ rest,
              Collection.get (Collection.set live id r') it.1 =
                Collection.get coll₀ it.1 := by
            intro it hm
            have hne : it.1 ≠ id := by
              intro e
              exact hid (e ▸ List.mem_map_of_mem Prod.fst hm)
            rw [Collection.get_set_ne live r' hne]
            exact hagree it (List.mem_cons_of_mem _ hm)
          obtain ⟨o, c, hloop, ho, hkeys, hout⟩ :=
            putAllLoop_failure A ctx coll₀ rest (Collection.set live id r')
              (Collection.remove toDel id) (res ++ [(id, r')])
              hndr hagree' hallr
          refine ⟨o, c, ?_, ?_, ?_, ?_⟩
          · simp only [putAllLoop, hglive, hu, he, if_true]
            exact hloop
          · rcases ho with ho | ⟨ho, it, hm, hir⟩
            · exact Or.inl ho
            · exact Or.inr ⟨ho, it, List.mem_cons_of_mem _ hm, hir⟩
          · rw [hkeys, Collection.keys_set live r' (by simp [hglive])]
          · intro k hk
            simp only [List.map_cons, List.mem_cons] at hk
            push_neg at hk
            rw [hout k hk.2, Collection.get_set_ne live r' hk.1]

/-- Reduction of `putAll` on an object payload when the loop returns early. -/
theorem putAll_obj_inl (A : Adapter Id Res Info) (ctx : Ctx Res)
    (coll : Coll Id Res) (items : List (Id × Info)) (o : Outcome Res)
    (c : Coll Id Res)
    (h : putAllLoop A ctx items coll coll [] = .inl (o, c)) :
    putAll A ctx coll (.obj items) = ⟨o, c, none⟩ := by
  simp only [putAll, h]

/-- Reduction of `putAll` on an object payload when the loop finishes. -/
theorem putAll_obj_inr (A : Adapter Id Res Info) (ctx : Ctx Res)
    (coll : Coll Id Res) (items : List (Id × Info))
    (c toDel res : Coll Id Res)
    (h : putAllLoop A ctx items coll coll [] = .inr (c, toDel, res)) :
    putAll A ctx coll (.obj items) =
      if toDel.all (fun p => ctx.mayDelete p.2) then
        ⟨if ctx.persistError then .internalError else .noContent,
         res, some res⟩
      else ⟨.forbidden, c, none⟩ := by
  simp only [putAll, h]

/-- Over the entries of `coll` itself, "not an update target" and "not a
payload identifier" coincide: a payload identifier carried by an entry of
`coll` is necessarily present in `coll`. -/
theorem filter_presentIds (coll : Coll Id Res) (items : List (Id × Info)) :
    coll.filter (fun p => decide (p.1 ∉ presentIds coll items)) =
    coll.filter (fun p => decide (p.1 ∉ items.map Prod.fst)) := by
  apply List.filter_congr
  intro p hp
  have hiff : p.1 ∈ presentIds coll items ↔ p.1 ∈ items.map Prod.fst := by
    constructor
    · intro h
      simp only [presentIds, List.mem_map, List.mem_filter] at h
      obtain ⟨it, ⟨hm, _⟩, he⟩ := h
      exact he ▸ List.mem_map_of_mem Prod.fst hm
    · intro h
      obtain ⟨it, hm, he⟩ := List.mem_map.1 h
      have hs : (Collection.get coll it.1).isSome = true := by
        rw [he]
        exact Collection.get_isSome_of_mem hp
      simp only [presentIds, List.mem_map]
      exact ⟨it, List.mem_filter.2 ⟨hm, hs⟩, he⟩
  simp [hiff]

/-- `putAll` on an object payload when every per-item check and every
deletion-rights check passes: `setAll` is called with a mapping whose keys
are exactly the payload's identifiers, that mapping becomes the in-memory
collection, and the notifier's completion decides 500-versus-204. -/
theorem putAll_success (A : Adapter Id Res Info) (ctx : Ctx Res)
    (coll : Coll Id Res) (items : List (Id × Info))
    (hnd : (items.map Prod.fst).Nodup)
    (hpass : ∀ it ∈ items, itemPasses A ctx coll it = true)
    (hdel : ∀ p ∈ coll, p.1 ∉ items.map Prod.fst → ctx.mayDelete p.2 = true) :
    ∃ resources : Coll Id Res,
      putAll A ctx coll (.obj items) =
        ⟨if ctx.persistError then .internalError else .noContent,
         resources, some resources⟩ ∧
      resources.map Prod.fst = items.map Prod.fst := by
  obtain ⟨live', res', hloop, hres, hkeys, hout⟩ :=
    putAllLoop_success A ctx coll items coll coll []
      hnd (fun it _ => rfl) hpass
  refine ⟨res', ?_, by simpa using hres⟩
  have hall : ((coll.filter
      (fun p => decide (p.1 ∉ presentIds coll items))).all
      (fun p => ctx.mayDelete p.2)) = true := by
    rw [filter_presentIds]
    rw [List.all_eq_true]
    intro p hp
    rcases List.mem_filter.1 hp with ⟨hpc, hq⟩
    exact hdel p hpc (by simpa using hq)
  rw [putAll_obj_inr A ctx coll items live' _ res' hloop, if_pos hall]

/-- `putAll` on an object payload when some check fails — a per-item check,
or a deletion-rights check after the whole loop passed: the reported status
is 400 or `disallow`, `setAll` is never called, the key list of the
in-memory collection is unchanged, and every identifier outside the payload
still maps to its original resource. -/
theorem putAll_failure (A : Adapter Id Res Info) (ctx : Ctx Res)
    (coll : Coll Id Res) (items : List (Id × Info))
    (hnd : (items.map Prod.fst).Nodup)
    (h : items.all (itemPasses A ctx coll) = false ∨
         ((coll.filter (fun p => decide (p.1 ∉ items.map Prod.fst))).all
           (fun p => ctx.mayDelete p.2)) = false) :
    ((putAll A ctx coll (.obj items)).outcome = .badRequest ∨
     (putAll A ctx coll (.obj items)).outcome = .forbidden) ∧
    (putAll A ctx coll (.obj items)).setAllArg = none ∧
    (putAll A ctx coll (.obj items)).coll.map Prod.fst = coll.map Prod.fst ∧
    (∀ k, k ∉ items.map Prod.fst →
      Collection.get (putAll A ctx coll (.obj items)).coll k =
        Collection.get coll k) := by
  by_cases hall : items.all (itemPasses A ctx coll) = true
  · have hdelf : ((coll.filter
        (fun p => decide (p.1 ∉ items.map Prod.fst))).all
        (fun p => ctx.mayDelete p.2)) = false := by
      rcases h with h | h
      · rw [hall] at h; cases h
      · exact h
    obtain ⟨live', res', hloop, hres, hkeys, hout⟩ :=
      putAllLoop_success A ctx coll items coll coll []
        hnd (fun it _ => rfl) (List.all_eq_true.1 hall)
    have hdelfP : ((coll.filter
        (fun p => decide (p.1 ∉ presentIds coll items))).all
        (fun p => ctx.mayDelete p.2)) = false := by
      rw [filter_presentIds]
      exact hdelf
    rw [putAll_obj_inr A ctx coll items live' _ res' hloop,
      if_neg (by rw [hdelfP]; exact Bool.false_ne_true)]
    exact ⟨Or.inr rfl, rfl, hkeys, hout⟩
  · have hallf : items.all (itemPasses A ctx coll) = false := by
      cases hb : items.all (itemPasses A ctx coll)
      · rfl
      · exact absurd hb hall
    obtain ⟨o, c, hloop, ho, hkeys, hout⟩ :=
      putAllLoop_failure A ctx coll items coll coll []
        hnd (fun it _ => rfl) hallf
    rw [putAll_obj_inl A ctx coll items o c hloop]
    refine ⟨?_, rfl, hkeys, hout⟩
    rcases ho with ho | ⟨ho, _⟩
    · exact Or.inr ho
    · exact Or.inl ho

/-- A 400 from `putAll` on an object payload always has an adapter rejection
to blame: some payload entry failed `instantiate` (absent identifier) or
`edit` (present identifier).  The shape check never fires on an object. -/
theorem putAll_badRequest_blame (A : Adapter Id Res Info) (ctx : Ctx Res)
    (coll : Coll Id Res) (items : List (Id × Info))
    (hnd : (items.map Prod.fst).Nodup)
    (hbr : (putAll A ctx coll (.obj items)).outcome = .badRequest) :
    ∃ it ∈ items, itemResult A coll it = none := by
  by_cases hall : items.all (itemPasses A ctx coll) = true
  · obtain ⟨live', res', hloop, _, _, _⟩ :=
      putAllLoop_success A ctx coll items coll coll []
        hnd (fun it _ => rfl) (List.all_eq_true.1 hall)
    rw [putAll_obj_inr A ctx coll items live' _ res' hloop] at hbr
    by_cases hd : ((coll.filter
        (fun p => decide (p.1 ∉ presentIds coll items))).all
        (fun p => ctx.mayDelete p.2)) = true
    · rw [if_pos hd] at hbr
      cases hpe : ctx.persistError <;> simp [hpe] at hbr
    · rw [if_neg hd] at hbr
      simp at hbr
  · have hallf : items.all (itemPasses A ctx coll) = false := by
      cases hb : items.all (itemPasses A ctx coll)
      · rfl
      · exact absurd hb hall
    obtain ⟨o, c, hloop, ho, _, _⟩ :=
      putAllLoop_failure A ctx coll items coll coll []
        hnd (fun it _ => rfl) hallf
    rw [putAll_obj_inl A ctx coll items o c hloop] at hbr
    rcases ho with ho | ⟨_, it, hm, hir⟩
    · rw [ho] at hbr; simp at hbr
    · exact ⟨it, hm, hir⟩

/-! ## The claims -/

/-- C2: on a JSON (default-representation) request the item PATCH handler
decides, in order, stopping at the first terminal outcome: identifier absent
from the collection → `notFound`; update not authorised → `forbidden`
(the `disallow` status); `edit` throws → `badRequest`; otherwise it commits
through `collection.set` and reports `internalError` when the persistence
callback passes an error, `noContent` otherwise. -/
theorem c2_item_patch_decision_sequence (A : Adapter Id Res Info)
    (ctx : Ctx Res) (coll : Coll Id Res) (id : Id) (obj : Info)
    (hj : ctx.isJson = true) :
    patch A ctx coll id obj =
      match Collection.get coll id with
      | none => (.notFound, coll)
      | some r =>
        if ctx.mayUpdate r then
          match A.edit r obj with
          | none => (.badRequest, coll)
          | some r' =>
            ((if ctx.persistError then .internalError else .noContent),
             Collection.set coll id r')
        else (.forbidden, coll) := by
  cases hg : Collection.get coll id with
  | none => simp [patch, hj, hg]
  | some r =>
    cases hu : ctx.mayUpdate r with
    | false => simp [patch, hj, hg, hu]
    | true =>
      cases he : A.edit r obj with
      | none => simp [patch, hj, hg, hu, he]
      | some r' => simp [patch, hj, hg, hu, he]

/-- Witness for C2: a present resource, JSON request, update allowed, edit
accepted, notifier succeeding — the decision chain yields 204 and the
committed entry. -/
theorem c2_item_patch_decision_sequence_witness :
    allowAllCtx.isJson = true ∧
    patch natAdapter allowAllCtx [(1, 10)] 1 99 = (.noContent, [(1, 99)]) := by
  have h := c2_item_patch_decision_sequence natAdapter allowAllCtx
    [(1, 10)] 1 99 (by decide)
  exact ⟨by decide, h.trans (by decide)⟩

/-- C3 is refuted as literally stated: with a resource present, a
non-default representation requested, a custom formatter registered and
read denied, the stated chain ("absent → NotFound, else non-default with no
formatter → UnsupportedFormat, else read denied → Forbidden, else OK")
demands `forbidden`, but the handler hands off to the formatter instead. -/
theorem c3_item_get_counterexample :
    Collection.get [(1, 10)] 1 = some 10 ∧
    fmtCtx.isJson = false ∧
    fmtCtx.hasCustomFn "get" 10 = true ∧
    fmtCtx.mayRead 10 = false ∧
    (itemGet fmtCtx [(1, 10)] 1).1 = Outcome.customHandled ∧
    (itemGet fmtCtx [(1, 10)] 1).1 ≠ Outcome.forbidden := by decide

/-- C3 (amended): the item GET handler decides, in order, stopping at the
first terminal outcome: identifier absent → `notFound`; on a non-default
representation it hands off to the custom formatter when one is registered
(no read-rights check) and reports `unsupportedFormat` otherwise; on the
default representation a read-rights denial → `forbidden`, else `ok` with
the resource as body; and the handler leaves the collection unchanged in
every case. -/
theorem c3_item_get_decision_sequence (ctx : Ctx Res) (coll : Coll Id Res)
    (id : Id) :
    itemGet ctx coll id =
      (match Collection.get coll id with
       | none => Outcome.notFound
       | some r =>
         if ctx.isJson then
           (if ctx.mayRead r then Outcome.ok r else Outcome.forbidden)
         else
           (if ctx.hasCustomFn "get" r then Outcome.customHandled
            else Outcome.unsupportedFormat),
       coll) := by
  cases hg : Collection.get coll id with
  | none => simp [itemGet, hg]
  | some r =>
    cases hj : ctx.isJson with
    | false =>
      cases hf : ctx.hasCustomFn "get" r <;> simp [itemGet, hg, hj, hf]
    | true =>
      cases hr : ctx.mayRead r <;> simp [itemGet, hg, hj, hr]

/-- C6: for an identifier not present in the collection, `get` returns
absent, and item GET and item PATCH both report `notFound` as their first
terminal decision — for every context, adapter and payload, so before any
formatter, rights, edit or commit step, and with the collection unchanged. -/
theorem c6_absent_identifier_not_found (coll : Coll Id Res) (i : Id)
    (h : i ∉ coll.map Prod.fst) :
    Collection.get coll i = none ∧
    (∀ ctx : Ctx Res, itemGet ctx coll i = (.notFound, coll)) ∧
    (∀ (A : Adapter Id Res Info) (ctx : Ctx Res) (obj : Info),
      patch A ctx coll i obj = (.notFound, coll)) := by
  have hg := Collection.get_eq_none_of_not_mem h
  exact ⟨hg, fun ctx => by simp [itemGet, hg],
    fun A ctx obj => by simp [patch, hg]⟩

/-- Witness for C6: identifier 2 is not in a collection holding only 1. -/
theorem c6_absent_identifier_not_found_witness :
    (2 : Nat) ∉ ([(1, 10)] : Coll Nat Nat).map Prod.fst ∧
    Collection.get ([(1, 10)] : Coll Nat Nat) 2 = none ∧
    itemGet fmtCtx [(1, 10)] 2 = (.notFound, [(1, 10)]) ∧
    patch natAdapter allowAllCtx [(1, 10)] 2 99 = (.notFound, [(1, 10)]) := by
  have h := @c6_absent_identifier_not_found Nat Nat Nat _
    ([(1, 10)] : Coll Nat Nat) 2 (by decide)
  exact ⟨by decide, h.1, h.2.1 fmtCtx, h.2.2 natAdapter allowAllCtx 99⟩

/-- C9: on a non-default-representation request with a custom formatter
registered for the resource, item GET and item PATCH hand off to the
formatter immediately — for every rights configuration, adapter, notifier
and payload, leaving the collection untouched: read/update authorisation,
`edit` and the commit are all bypassed. -/
theorem c9_custom_format_hands_off (A : Adapter Id Res Info) (ctx : Ctx Res)
    (coll : Coll Id Res) (id : Id) (obj : Info) (r : Res)
    (hg : Collection.get coll id = some r)
    (hj : ctx.isJson = false)
    (hfg : ctx.hasCustomFn "get" r = true)
    (hfp : ctx.hasCustomFn "patch" r = true) :
    itemGet ctx coll id = (.customHandled, coll) ∧
    patch A ctx coll id obj = (.customHandled, coll) := by
  constructor
  · simp [itemGet, hg, hj, hfg]
  · simp [patch, hg, hj, hfp]

/-- Witness for C9: read and update are denied, yet the handlers hand off
without consulting rights. -/
theorem c9_custom_format_hands_off_witness :
    Collection.get [(1, 10)] 1 = some 10 ∧
    fmtCtx.isJson = false ∧
    fmtCtx.hasCustomFn "get" 10 = true ∧
    fmtCtx.hasCustomFn "patch" 10 = true ∧
    itemGet fmtCtx [(1, 10)] 1 = (.customHandled, [(1, 10)]) ∧
    patch natAdapter fmtCtx [(1, 10)] 1 99 = (.customHandled, [(1, 10)]) := by
  have h := c9_custom_format_hands_off natAdapter fmtCtx [(1, 10)] 1 99 10
    (by decide) (by decide) (by decide) (by decide)
  exact ⟨by decide, by decide, by decide, by decide, h.1, h.2⟩

/-- C10: item PATCH applies `edit` in place to the live resource before
calling `collection.set`, so when the notifier then fails the handler
reports `internalError` while the in-memory collection keeps the edited
resource state — the error outcome performs no rollback. -/
theorem c10_patch_no_rollback (A : Adapter Id Res Info) (ctx : Ctx Res)
    (coll : Coll Id Res) (id : Id) (obj : Info) (r r' : Res)
    (hg : Collection.get coll id = some r)
    (hj : ctx.isJson = true)
    (hu : ctx.mayUpdate r = true)
    (he : A.edit r obj = some r')
    (hpe : ctx.persistError = true) :
    patch A ctx coll id obj = (.internalError, Collection.set coll id r') ∧
    Collection.get (Collection.set coll id r') id = some r' := by
  exact ⟨by simp [patch, hg, hj, hu, he, hpe], Collection.get_set_self _ _ _⟩

/-- Witness for C10: the notifier always fails; PATCH answers 500 and the
collection holds the edited value 99, not the original 10. -/
theorem c10_patch_no_rollback_witness :
    failCtx.persistError = true ∧
    patch natAdapter failCtx [(1, 10)] 1 99 = (.internalError, [(1, 99)]) ∧
    Collection.get ([(1, 99)] : Coll Nat Nat) 1 = some 99 := by
  have h := c10_patch_no_rollback natAdapter failCtx [(1, 10)] 1 99 10 99
    (by decide) (by decide) (by decide) (by decide) (by decide)
  exact ⟨by decide, h.1.trans (by decide), by decide⟩

/-- C1 is refuted: collection `{1 ↦ 10, 2 ↦ 20}`, payload updating both
entries, update allowed only on the resource with state `10`.  Entry 1 is
edited in place to `11`, then entry 2 fails the update-rights check: the
handler returns the rights-denial outcome without calling `setAll`, yet the
collection now reads `{1 ↦ 11, 2 ↦ 20}` — not its pre-call state.  The
payload state of stored resources is not restored, so the operation is not
atomic in the claimed sense. -/
theorem c1_collection_put_not_atomic_counterexample :
    (putAll natAdapter updateOnly10Ctx [(1, 10), (2, 20)]
        (.obj [(1, 11), (2, 21)])).outcome = Outcome.forbidden ∧
    (putAll natAdapter updateOnly10Ctx [(1, 10), (2, 20)]
        (.obj [(1, 11), (2, 21)])).setAllArg = none ∧
    (putAll natAdapter updateOnly10Ctx [(1, 10), (2, 20)]
        (.obj [(1, 11), (2, 21)])).coll = [(1, 11), (2, 20)] ∧
    ([(1, 11), (2, 20)] : Coll Nat Nat) ≠ [(1, 10), (2, 20)] := by decide

/-- C1 (amended): on any instantiation, edit or rights failure, collection
PUT reports its error without ever calling `setAll`, and the collection's
identifier structure is untouched — same key list, and every identifier
outside the payload still maps to its original resource.  What is *not*
preserved is the payload state of resources named by the payload: in-place
edits applied to entries processed before the failure persist. -/
theorem c1_collection_put_failure_outside_payload_untouched
    (A : Adapter Id Res Info) (ctx : Ctx Res) (coll : Coll Id Res)
    (items : List (Id × Info))
    (hnd : (items.map Prod.fst).Nodup)
    (herr : (putAll A ctx coll (.obj items)).outcome = .badRequest ∨
            (putAll A ctx coll (.obj items)).outcome = .forbidden) :
    (putAll A ctx coll (.obj items)).setAllArg = none ∧
    (putAll A ctx coll (.obj items)).coll.map Prod.fst = coll.map Prod.fst ∧
    (∀ k, k ∉ items.map Prod.fst →
      Collection.get (putAll A ctx coll (.obj items)).coll k =
        Collection.get coll k) := by
  by_cases hall : items.all (itemPasses A ctx coll) = true
  · by_cases hdel : ((coll.filter
        (fun p => decide (p.1 ∉ items.map Prod.fst))).all
        (fun p => ctx.mayDelete p.2)) = true
    · obtain ⟨resources, heq, -⟩ :=
        putAll_success A ctx coll items hnd (List.all_eq_true.1 hall)
          (fun p hp hq =>
            List.all_eq_true.1 hdel p
              (List.mem_filter.2 ⟨hp, by simpa using hq⟩))
      rw [heq] at herr
      cases hpe : ctx.persistError <;> rw [hpe] at herr <;> simp at herr
    · have hdelf : ((coll.filter
          (fun p => decide (p.1 ∉ items.map Prod.fst))).all
          (fun p => ctx.mayDelete p.2)) = false := by
        simpa using hdel
      obtain ⟨-, h1, h2, h3⟩ := putAll_failure A ctx coll items hnd (Or.inr hdelf)
      exact ⟨h1, h2, h3⟩
  · have hallf : items.all (itemPasses A ctx coll) = false := by
      simpa using hall
    obtain ⟨-, h1, h2, h3⟩ := putAll_failure A ctx coll items hnd (Or.inl hallf)
    exact ⟨h1, h2, h3⟩

/-- Witness for the amended C1, on the counterexample's input: the denial
leaves `setAll` uncalled, the key list `[1, 2]` intact, and the identifier
3 (outside the payload) unchanged. -/
theorem c1_collection_put_failure_outside_payload_untouched_witness :
    (([(1, 11), (2, 21)] : List (Nat × Nat)).map Prod.fst).Nodup ∧
    (putAll natAdapter updateOnly10Ctx [(1, 10), (2, 20)]
        (.obj [(1, 11), (2, 21)])).outcome = Outcome.forbidden ∧
    (putAll natAdapter updateOnly10Ctx [(1, 10), (2, 20)]
        (.obj [(1, 11), (2, 21)])).setAllArg = none ∧
    (putAll natAdapter updateOnly10Ctx [(1, 10), (2, 20)]
        (.obj [(1, 11), (2, 21)])).coll.map Prod.fst =
      ([(1, 10), (2, 20)] : Coll Nat Nat).map Prod.fst ∧
    Collection.get (putAll natAdapter updateOnly10Ctx [(1, 10), (2, 20)]
        (.obj [(1, 11), (2, 21)])).coll 3 =
      Collection.get [(1, 10), (2, 20)] 3 := by
  have h := c1_collection_put_failure_outside_payload_untouched natAdapter
    updateOnly10Ctx [(1, 10), (2, 20)] [(1, 11), (2, 21)] (by decide)
    (Or.inr (by decide))
  exact ⟨by decide, by decide, h.1, h.2.1, h.2.2 3 (by decide)⟩

/-- C4: `setAll` is invoked — and `putAll` invokes it at most once, so
exactly once — precisely when every payload entry passes its per-item
processing (instantiate + create right for absent identifiers, update right
+ edit for present ones) and every collection entry not named by the
payload passes the delete right.  The mapping passed to `setAll` carries
exactly the payload's identifiers, and when `setAll` is not invoked the
handler terminates with the 400 or rights-denial outcome. -/
theorem c4_putAll_calls_setAll_iff (A : Adapter Id Res Info) (ctx : Ctx Res)
    (coll : Coll Id Res) (items : List (Id × Info))
    (hnd : (items.map Prod.fst).Nodup) :
    ((putAll A ctx coll (.obj items)).setAllArg.isSome = true ↔
      ((∀ it ∈ items, itemPasses A ctx coll it = true) ∧
       (∀ p ∈ coll, p.1 ∉ items.map Prod.fst → ctx.mayDelete p.2 = true))) ∧
    (∀ m, (putAll A ctx coll (.obj items)).setAllArg = some m →
      m.map Prod.fst = items.map Prod.fst) ∧
    ((putAll A ctx coll (.obj items)).setAllArg = none →
      (putAll A ctx coll (.obj items)).outcome = .badRequest ∨
      (putAll A ctx coll (.obj items)).outcome = .forbidden) := by
  by_cases hall : items.all (itemPasses A ctx coll) = true
  · by_cases hdel : ((coll.filter
        (fun p => decide (p.1 ∉ items.map Prod.fst))).all
        (fun p => ctx.mayDelete p.2)) = true
    · have hdel' : ∀ p ∈ coll, p.1 ∉ items.map Prod.fst →
          ctx.mayDelete p.2 = true := fun p hp hq =>
        List.all_eq_true.1 hdel p (List.mem_filter.2 ⟨hp, by simpa using hq⟩)
      obtain ⟨resources, heq, hkeys⟩ :=
        putAll_success A ctx coll items hnd (List.all_eq_true.1 hall) hdel'
      rw [heq]
      refine ⟨iff_of_true rfl ⟨List.all_eq_true.1 hall, hdel'⟩, ?_, ?_⟩
      · intro m hm
        obtain rfl : resources = m := Option.some.inj hm
        exact hkeys
      · intro hnone
        exact absurd hnone (Option.some_ne_none _)
    · have hdelf : ((coll.filter
          (fun p => decide (p.1 ∉ items.map Prod.fst))).all
          (fun p => ctx.mayDelete p.2)) = false := by
        simpa using hdel
      obtain ⟨houtc, hnone, -, -⟩ :=
        putAll_failure A ctx coll items hnd (Or.inr hdelf)
      refine ⟨iff_of_false (by rw [hnone]; simp) ?_, ?_, fun _ => houtc⟩
      · rintro ⟨-, hdel'⟩
        refine hdel (List.all_eq_true.2 fun p hp => ?_)
        rcases List.mem_filter.1 hp with ⟨hpc, hq⟩
        exact hdel' p hpc (by simpa using hq)
      · intro m hm
        rw [hnone] at hm
        simp at hm
  · have hallf : items.all (itemPasses A ctx coll) = false := by
      simpa using hall
    obtain ⟨houtc, hnone, -, -⟩ :=
      putAll_failure A ctx coll items hnd (Or.inl hallf)
    refine ⟨iff_of_false (by rw [hnone]; simp) ?_, ?_, fun _ => houtc⟩
    · rintro ⟨hpass, -⟩
      exact hall (List.all_eq_true.2 hpass)
    · intro m hm
      rw [hnone] at hm
      simp at hm

/-- Witness for C4: all checks pass, so `setAll` is called, with the
payload's identifiers `[1, 2]`. -/
theorem c4_putAll_calls_setAll_iff_witness :
    (([(1, 3), (2, 4)] : List (Nat × Nat)).map Prod.fst).Nodup ∧
    ((putAll natAdapter allowAllCtx [(0, 1), (1, 2)]
        (.obj [(1, 3), (2, 4)])).setAllArg.isSome = true ↔
      ((∀ it ∈ ([(1, 3), (2, 4)] : List (Nat × Nat)),
          itemPasses natAdapter allowAllCtx [(0, 1), (1, 2)] it = true) ∧
       (∀ p ∈ ([(0, 1), (1, 2)] : Coll Nat Nat),
          p.1 ∉ ([(1, 3), (2, 4)] : List (Nat × Nat)).map Prod.fst →
          allowAllCtx.mayDelete p.2 = true))) := by
  have h := c4_putAll_calls_setAll_iff natAdapter allowAllCtx
    [(0, 1), (1, 2)] [(1, 3), (2, 4)] (by decide)
  exact ⟨by decide, h.1⟩

/-- C5: collection PUT replace semantics — when every per-item check and
every deletion-rights check passes and the notifier succeeds, the handler
reports 204 and the resulting collection's identifier list is exactly the
payload's: payload entries are created or updated, every other previously
stored identifier is deleted. -/
theorem c5_collection_put_replace (A : Adapter Id Res Info) (ctx : Ctx Res)
    (coll : Coll Id Res) (items : List (Id × Info))
    (hnd : (items.map Prod.fst).Nodup)
    (hpass : ∀ it ∈ items, itemPasses A ctx coll it = true)
    (hdel : ∀ p ∈ coll, p.1 ∉ items.map Prod.fst → ctx.mayDelete p.2 = true)
    (hpe : ctx.persistError = false) :
    (putAll A ctx coll (.obj items)).outcome = .noContent ∧
    (putAll A ctx coll (.obj items)).coll.map Prod.fst =
      items.map Prod.fst := by
  obtain ⟨resources, heq, hkeys⟩ := putAll_success A ctx coll items hnd hpass hdel
  rw [heq]
  exact ⟨by simp [hpe], hkeys⟩

/-- Witness for C5, the spec's own example with identifiers a = 0, b = 1,
c = 2: collection `{a ↦ 1, b ↦ 2}`, payload `{b ↦ 3, c ↦ 4}` — result is
exactly `{b ↦ 3, c ↦ 4}`; `a` is gone. -/
theorem c5_collection_put_replace_witness :
    (([(1, 3), (2, 4)] : List (Nat × Nat)).map Prod.fst).Nodup ∧
    allowAllCtx.persistError = false ∧
    (putAll natAdapter allowAllCtx [(0, 1), (1, 2)]
        (.obj [(1, 3), (2, 4)])).outcome = .noContent ∧
    (putAll natAdapter allowAllCtx [(0, 1), (1, 2)]
        (.obj [(1, 3), (2, 4)])).coll = [(1, 3), (2, 4)] := by
  have h := c5_collection_put_replace natAdapter allowAllCtx
    [(0, 1), (1, 2)] [(1, 3), (2, 4)] (by decide) (by decide) (by decide)
    (by decide)
  exact ⟨by decide, by decide, h.1, by decide⟩

/-- C7: notifier failure propagation — once item PATCH (via `set`) or
collection PUT (via `setAll`) has passed all validation and rights checks,
the notifier's completion alone decides the status: an error gives
`internalError`, success gives `noContent`.  With an always-failing
notifier every such mutating operation returns `internalError`. -/
theorem c7_notifier_failure_propagation (A : Adapter Id Res Info)
    (ctx : Ctx Res) (coll : Coll Id Res) (id : Id) (obj : Info) (r r' : Res)
    (items : List (Id × Info))
    (hg : Collection.get coll id = some r)
    (hj : ctx.isJson = true)
    (hu : ctx.mayUpdate r = true)
    (he : A.edit r obj = some r')
    (hnd : (items.map Prod.fst).Nodup)
    (hpass : ∀ it ∈ items, itemPasses A ctx coll it = true)
    (hdel : ∀ p ∈ coll, p.1 ∉ items.map Prod.fst → ctx.mayDelete p.2 = true) :
    (patch A ctx coll id obj).1 =
      (if ctx.persistError then .internalError else .noContent) ∧
    (putAll A ctx coll (.obj items)).outcome =
      (if ctx.persistError then .internalError else .noContent) := by
  constructor
  · simp [patch, hg, hj, hu, he]
  · obtain ⟨resources, heq, -⟩ := putAll_success A ctx coll items hnd hpass hdel
    rw [heq]

/-- Witness for C7 with the always-failing notifier: both mutating
operations pass all their checks and still answer 500. -/
theorem c7_notifier_failure_propagation_witness :
    failCtx.persistError = true ∧
    (patch natAdapter failCtx [(1, 10)] 1 99).1 = Outcome.internalError ∧
    (putAll natAdapter failCtx [(1, 10)]
        (.obj [(1, 99)])).outcome = Outcome.internalError := by
  have h := c7_notifier_failure_propagation natAdapter failCtx [(1, 10)]
    1 99 10 99 [(1, 99)] (by decide) (by decide) (by decide) (by decide)
    (by decide) (by decide) (by decide)
  exact ⟨by decide, h.1.trans (by decide), h.2.trans (by decide)⟩

/-- C8: collection PUT payload-shape validation — a `null`/absent or
non-object payload is answered 400 with the collection returned unchanged
and `setAll` uncalled, independently of the adapter and of the context (so
no instantiation, edit or rights check can have occurred); an object
payload is never rejected by this shape check: when every payload entry's
adapter call succeeds, the handler never reports 400. -/
theorem c8_payload_shape_validation (A : Adapter Id Res Info) (ctx : Ctx Res)
    (coll : Coll Id Res) (items : List (Id × Info))
    (hnd : (items.map Prod.fst).Nodup)
    (hok : ∀ it ∈ items, (itemResult A coll it).isSome = true) :
    putAll A ctx coll .nullish = ⟨.badRequest, coll, none⟩ ∧
    putAll A ctx coll .primitive = ⟨.badRequest, coll, none⟩ ∧
    (putAll A ctx coll (.obj items)).outcome ≠ .badRequest := by
  refine ⟨rfl, rfl, fun hbr => ?_⟩
  obtain ⟨it, hm, hir⟩ := putAll_badRequest_blame A ctx coll items hnd hbr
  have hs := hok it hm
  rw [hir] at hs
  simp at hs

/-- Witness for C8: the shape check fires on `null` and on a non-object;
an object payload whose entries the adapter accepts is not answered 400
(here it is answered 204). -/
theorem c8_payload_shape_validation_witness :
    putAll natAdapter allowAllCtx [(1, 10)] .nullish =
      ⟨.badRequest, [(1, 10)], none⟩ ∧
    putAll natAdapter allowAllCtx [(1, 10)] .primitive =
      ⟨.badRequest, [(1, 10)], none⟩ ∧
    (putAll natAdapter allowAllCtx [(1, 10)]
        (.obj [(1, 99)])).outcome ≠ Outcome.badRequest ∧
    (putAll natAdapter allowAllCtx [(1, 10)]
        (.obj [(1, 99)])).outcome = Outcome.noContent := by
  have h := c8_payload_shape_validation natAdapter allowAllCtx [(1, 10)]
    [(1, 99)] (by decide) (by decide)
  exact ⟨h.1, h.2.1, h.2.2, by decide⟩

end Rested
